import Mathlib

/-!
Shallow embedding of `src/app/core/rate_limiter.py` (class `RateLimiter`)
and verification of the specification's claims about it.

Modelling choices:
* Python's dynamically typed arguments are modelled by small sum types:
  a `customer_id` argument is either a string or some non-string value
  (`CustomerArg.nonStr`); a `current_time` argument is either a number
  (modelled as a rational, covering both `int` and `float` inputs) or a
  non-numeric value; the constructor arguments are either integers or
  non-integers.
* `raise ValueError(msg)` is modelled as returning `Except.error msg`
  together with the unchanged limiter state (the Python code raises before
  any mutation of `self.customers`).
* The `customers` dictionary is modelled as a function
  `String → Option (ℕ × ℕ)`; entries `(window_start, request_count)` are
  pairs of naturals (all stored values are non-negative because validated
  timestamps are non-negative).
* Python's `int(current_time)` truncates toward zero; on the validated
  domain `current_time ≥ 0` this equals the floor, so it is modelled as
  `(⌊q⌋).toNat`.
* The per-customer locks serve only to make each call's read-modify-write
  atomic; a single sequential call is embedded as a pure state transformer.
-/

namespace RateLimiterSpec

/-- A `customer_id` argument: either an actual string or a non-string value. -/
inductive CustomerArg where
  | str (s : String)
  | nonStr
deriving DecidableEq

/-- A `current_time` argument: either a number (`int` or `float`, modelled as
a rational) or a non-numeric value. -/
inductive TimeArg where
  | num (q : ℚ)
  | nonNum
deriving DecidableEq

/-- A constructor argument: either an integer or a non-integer value. -/
inductive IntArg where
  | int (n : ℤ)
  | nonInt
deriving DecidableEq

/-- The state of a `RateLimiter` object: the immutable configuration
`rate` and `time_window`, and the `customers` dictionary mapping a
customer id to its `(window_start, request_count)` pair. -/
structure RateLimiter where
  rate : ℕ
  time_window : ℕ
  customers : String → Option (ℕ × ℕ)

/-- The state of a freshly constructed limiter with the given (already
validated) configuration: the `customers` dictionary is empty. -/
def RateLimiter.init (r w : ℕ) : RateLimiter :=
  { rate := r, time_window := w, customers := fun _ => none }

/-- Embedding of `RateLimiter.__init__`: validates that `rate` and
`time_window` are positive integers, raising `ValueError` otherwise. -/
def RateLimiter.make (rate time_window : IntArg) : Except String RateLimiter :=
  match rate with
  | .nonInt => .error "Rate must be a positive integer"
  | .int r =>
    if r ≤ 0 then .error "Rate must be a positive integer"
    else
      match time_window with
      | .nonInt => .error "Time window must be a positive integer"
      | .int w =>
        if w ≤ 0 then .error "Time window must be a positive integer"
        else .ok (RateLimiter.init r.toNat w.toNat)

/-- Embedding of `RateLimiter.is_allowed`. Returns the decision (or the
raised error) together with the limiter state after the call. -/
def RateLimiter.is_allowed (rl : RateLimiter) (customer_id : CustomerArg)
    (current_time : TimeArg) : Except String Bool × RateLimiter :=
  match customer_id with
  | .nonStr => (.error "customer_id must be a non-empty string", rl)
  | .str s =>
    if s = "" then (.error "customer_id must be a non-empty string", rl)
    else
      match current_time with
      | .nonNum => (.error "current_time must be a non-negative number", rl)
      | .num q =>
        if q < 0 then (.error "current_time must be a non-negative number", rl)
        else
          let current_time_int : ℕ := (⌊q⌋).toNat
          let current_window_start :=
            current_time_int / rl.time_window * rl.time_window
          match rl.customers s with
          | none =>
            (.ok true,
             { rl with customers := fun id =>
                 if id = s then some (current_window_start, 1)
                 else rl.customers id })
          | some (window_start, request_count) =>
            if window_start < current_window_start then
              (.ok true,
               { rl with customers := fun id =>
                   if id = s then some (current_window_start, 1)
                   else rl.customers id })
            else if rl.rate ≤ request_count then
              (.ok false, rl)
            else
              (.ok true,
               { rl with customers := fun id =>
                   if id = s then some (window_start, request_count + 1)
                   else rl.customers id })

/-- Runs a list of calls, threading the state (the decisions are discarded). -/
def runCalls (rl : RateLimiter) : List (CustomerArg × TimeArg) → RateLimiter
  | [] => rl
  | a :: rest => runCalls (rl.is_allowed a.1 a.2).2 rest

/-- Runs a sequence of calls for one identity, collecting the outcomes. -/
def callResults (rl : RateLimiter) (X : String) : List ℚ → List (Except String Bool)
  | [] => []
  | t :: ts =>
    (rl.is_allowed (.str X) (.num t)).1 ::
      callResults (rl.is_allowed (.str X) (.num t)).2 X ts

/-- Returns true exactly when the call raised. -/
def isErr {α : Type} (e : Except String α) : Bool :=
  match e with
  | .error _ => true
  | .ok _ => false

/-- The states reachable from a freshly constructed limiter by any sequence
of `is_allowed` calls (a call that raises leaves the state unchanged). -/
inductive Reachable : RateLimiter → Prop where
  | base (r w : ℕ) (hr : 1 ≤ r) (hw : 1 ≤ w) : Reachable (RateLimiter.init r w)
  | step (rl : RateLimiter) (cid : CustomerArg) (ct : TimeArg) :
      Reachable rl → Reachable (rl.is_allowed cid ct).2

/-- The invariant maintained by `is_allowed`: positive configuration, and
every stored entry has a count in `[1, rate]` and a window start aligned to
a multiple of the window size. -/
def Good (rl : RateLimiter) : Prop :=
  1 ≤ rl.rate ∧ 1 ≤ rl.time_window ∧
    ∀ X ws c, rl.customers X = some (ws, c) →
      1 ≤ c ∧ c ≤ rl.rate ∧ ws % rl.time_window = 0

/-- Identity `X` has a stored window start at least `ws`, and if it is still
exactly `ws` then the stored count has reached the rate `R`. -/
def SaturatedAt (X : String) (ws R : ℕ) (rl : RateLimiter) : Prop :=
  rl.rate = R ∧
    ∃ ws' c, rl.customers X = some (ws', c) ∧ ws ≤ ws' ∧ (ws' = ws → R ≤ c)

instance {ε α : Type} [DecidableEq ε] [DecidableEq α] : DecidableEq (Except ε α) :=
  fun a b =>
    match a, b with
    | .error e₁, .error e₂ =>
      if h : e₁ = e₂ then .isTrue (by rw [h]) else .isFalse (by simp [h])
    | .error _, .ok _ => .isFalse (by simp)
    | .ok _, .error _ => .isFalse (by simp)
    | .ok a₁, .ok a₂ =>
      if h : a₁ = a₂ then .isTrue (by rw [h]) else .isFalse (by simp [h])

namespace RateLimiter

variable (rl : RateLimiter)

theorem is_allowed_nonStr (ct : TimeArg) :
    rl.is_allowed .nonStr ct = (.error "customer_id must be a non-empty string", rl) := rfl

theorem is_allowed_empty (ct : TimeArg) :
    rl.is_allowed (.str "") ct = (.error "customer_id must be a non-empty string", rl) := by
  simp [is_allowed]

theorem is_allowed_nonNum (s : String) (hs : s ≠ "") :
    rl.is_allowed (.str s) .nonNum = (.error "current_time must be a non-negative number", rl) := by
  simp [is_allowed, hs]

theorem is_allowed_neg (s : String) (q : ℚ) (hs : s ≠ "") (hq : q < 0) :
    rl.is_allowed (.str s) (.num q) =
      (.error "current_time must be a non-negative number", rl) := by
  simp [is_allowed, hs, hq]

theorem is_allowed_new (s : String) (q : ℚ) (hs : s ≠ "") (hq : 0 ≤ q)
    (hnone : rl.customers s = none) :
    rl.is_allowed (.str s) (.num q) =
      (.ok true,
       { rl with customers := fun id =>
           if id = s then some ((⌊q⌋).toNat / rl.time_window * rl.time_window, 1)
           else rl.customers id }) := by
  simp [is_allowed, hs, not_lt.mpr hq, hnone]

theorem is_allowed_reset (s : String) (q : ℚ) (ws c : ℕ) (hs : s ≠ "") (hq : 0 ≤ q)
    (hsome : rl.customers s = some (ws, c))
    (hlt : ws < (⌊q⌋).toNat / rl.time_window * rl.time_window) :
    rl.is_allowed (.str s) (.num q) =
      (.ok true,
       { rl with customers := fun id =>
           if id = s then some ((⌊q⌋).toNat / rl.time_window * rl.time_window, 1)
           else rl.customers id }) := by
  simp [is_allowed, hs, not_lt.mpr hq, hsome, hlt]

theorem is_allowed_reject (s : String) (q : ℚ) (ws c : ℕ) (hs : s ≠ "") (hq : 0 ≤ q)
    (hsome : rl.customers s = some (ws, c))
    (hge : ¬ ws < (⌊q⌋).toNat / rl.time_window * rl.time_window)
    (hsat : rl.rate ≤ c) :
    rl.is_allowed (.str s) (.num q) = (.ok false, rl) := by
  simp [is_allowed, hs, not_lt.mpr hq, hsome, hge, hsat]

theorem is_allowed_incr (s : String) (q : ℚ) (ws c : ℕ) (hs : s ≠ "") (hq : 0 ≤ q)
    (hsome : rl.customers s = some (ws, c))
    (hge : ¬ ws < (⌊q⌋).toNat / rl.time_window * rl.time_window)
    (hlt : ¬ rl.rate ≤ c) :
    rl.is_allowed (.str s) (.num q) =
      (.ok true,
       { rl with customers := fun id =>
           if id = s then some (ws, c + 1) else rl.customers id }) := by
  simp [is_allowed, hs, not_lt.mpr hq, hsome, hge, hlt]

theorem rate_is_allowed (cid : CustomerArg) (ct : TimeArg) :
    (rl.is_allowed cid ct).2.rate = rl.rate := by
  unfold is_allowed
  rcases cid with s | _ <;> rcases ct with q | _ <;> dsimp only <;> split <;>
    try rfl
  · split
    · rfl
    · split
      · rfl
      · split <;> [rfl; (split <;> rfl)]

theorem time_window_is_allowed (cid : CustomerArg) (ct : TimeArg) :
    (rl.is_allowed cid ct).2.time_window = rl.time_window := by
  unfold is_allowed
  rcases cid with s | _ <;> rcases ct with q | _ <;> dsimp only <;> split <;>
    try rfl
  · split
    · rfl
    · split
      · rfl
      · split <;> [rfl; (split <;> rfl)]

theorem customers_is_allowed_other (cid : CustomerArg) (ct : TimeArg) (B : String)
    (hB : cid ≠ .str B) :
    (rl.is_allowed cid ct).2.customers B = rl.customers B := by
  unfold is_allowed
  rcases cid with s | _ <;> rcases ct with q | _ <;> dsimp only
  case str.num =>
    have hBs : B ≠ s := fun h => hB (by rw [h])
    split
    · rfl
    · split
      · rfl
      · split
        · simp [hBs]
        · split
          · simp [hBs]
          · split <;> simp [hBs]
  all_goals (split <;> rfl)

theorem is_allowed_ok_of_valid (s : String) (q : ℚ) (hs : s ≠ "") (hq : 0 ≤ q) :
    isErr (rl.is_allowed (.str s) (.num q)).1 = false := by
  cases hcs : rl.customers s with
  | none => rw [rl.is_allowed_new s q hs hq hcs]; rfl
  | some p =>
    obtain ⟨ws, c⟩ := p
    by_cases h1 : ws < (⌊q⌋).toNat / rl.time_window * rl.time_window
    · rw [rl.is_allowed_reset s q ws c hs hq hcs h1]; rfl
    · by_cases h2 : rl.rate ≤ c
      · rw [rl.is_allowed_reject s q ws c hs hq hcs h1 h2]; rfl
      · rw [rl.is_allowed_incr s q ws c hs hq hcs h1 h2]; rfl

theorem of_reject (X : String) (t : ℚ) (ws c : ℕ)
    (hentry : rl.customers X = some (ws, c))
    (hfalse : (rl.is_allowed (.str X) (.num t)).1 = .ok false) :
    X ≠ "" ∧ 0 ≤ t ∧ rl.rate ≤ c ∧
      ¬ ws < (⌊t⌋).toNat / rl.time_window * rl.time_window ∧
      (rl.is_allowed (.str X) (.num t)).2 = rl := by
  by_cases hs : X = ""
  · subst hs; rw [rl.is_allowed_empty] at hfalse; exact absurd hfalse (by simp)
  by_cases hq : t < 0
  · rw [rl.is_allowed_neg X t hs hq] at hfalse; exact absurd hfalse (by simp)
  replace hq := not_lt.mp hq
  by_cases h1 : ws < (⌊t⌋).toNat / rl.time_window * rl.time_window
  · rw [rl.is_allowed_reset X t ws c hs hq hentry h1] at hfalse
    exact absurd hfalse (by simp)
  by_cases h2 : rl.rate ≤ c
  · exact ⟨hs, hq, h2, h1, by rw [rl.is_allowed_reject X t ws c hs hq hentry h1 h2]⟩
  · rw [rl.is_allowed_incr X t ws c hs hq hentry h1 h2] at hfalse
    exact absurd hfalse (by simp)

theorem is_allowed_snd_shape (cid : CustomerArg) (ct : TimeArg) :
    (rl.is_allowed cid ct).2 = rl ∨
    ∃ s q, cid = .str s ∧ ct = .num q ∧ s ≠ "" ∧ 0 ≤ q ∧
      ((rl.customers s = none ∧
        ∀ id, (rl.is_allowed cid ct).2.customers id =
          if id = s then some ((⌊q⌋).toNat / rl.time_window * rl.time_window, 1)
          else rl.customers id) ∨
      (∃ ws c, rl.customers s = some (ws, c) ∧
        ws < (⌊q⌋).toNat / rl.time_window * rl.time_window ∧
        ∀ id, (rl.is_allowed cid ct).2.customers id =
          if id = s then some ((⌊q⌋).toNat / rl.time_window * rl.time_window, 1)
          else rl.customers id) ∨
      (∃ ws c, rl.customers s = some (ws, c) ∧ c < rl.rate ∧
        ¬ ws < (⌊q⌋).toNat / rl.time_window * rl.time_window ∧
        ∀ id, (rl.is_allowed cid ct).2.customers id =
          if id = s then some (ws, c + 1) else rl.customers id)) := by
  rcases cid with s | _
  · rcases ct with q | _
    · by_cases hs : s = ""
      · subst hs; rw [rl.is_allowed_empty]
        exact Or.inl rfl
      by_cases hq : q < 0
      · rw [rl.is_allowed_neg s q hs hq]
        exact Or.inl rfl
      replace hq := not_lt.mp hq
      cases hcs : rl.customers s with
      | none =>
        refine Or.inr ⟨s, q, rfl, rfl, hs, hq, Or.inl ⟨hcs, fun id => ?_⟩⟩
        rw [rl.is_allowed_new s q hs hq hcs]
      | some p =>
        obtain ⟨ws, c⟩ := p
        by_cases h1 : ws < (⌊q⌋).toNat / rl.time_window * rl.time_window
        · refine Or.inr ⟨s, q, rfl, rfl, hs, hq,
            Or.inr (Or.inl ⟨ws, c, hcs, h1, fun id => ?_⟩)⟩
          rw [rl.is_allowed_reset s q ws c hs hq hcs h1]
        by_cases h2 : rl.rate ≤ c
        · rw [rl.is_allowed_reject s q ws c hs hq hcs h1 h2]
          exact Or.inl rfl
        · refine Or.inr ⟨s, q, rfl, rfl, hs, hq,
            Or.inr (Or.inr ⟨ws, c, hcs, not_le.mp h2, h1, fun id => ?_⟩)⟩
          rw [rl.is_allowed_incr s q ws c hs hq hcs h1 h2]
    · by_cases hs : s = ""
      · subst hs; rw [rl.is_allowed_empty]; exact Or.inl rfl
      · rw [rl.is_allowed_nonNum s hs]; exact Or.inl rfl
  · rw [rl.is_allowed_nonStr]; exact Or.inl rfl

end RateLimiter

/-- The quotient-floor window start is a multiple of the window size. -/
theorem windowStart_mod (n w : ℕ) : n / w * w % w = 0 :=
  Nat.mul_mod_left (n / w) w

/-- If `n` is at least one full window past `ws`, the window start computed
from `n` lies strictly beyond `ws`. -/
theorem windowStart_lt_of_add_le (w ws n : ℕ) (hw : 1 ≤ w) (h : ws + w ≤ n) :
    ws < n / w * w := by
  have h1 : n % w < w := Nat.mod_lt _ (by omega)
  have h2 : n < n / w * w + w := by
    calc n = w * (n / w) + n % w := (Nat.div_add_mod n w).symm
    _ < w * (n / w) + w := Nat.add_lt_add_left h1 _
    _ = n / w * w + w := by rw [Nat.mul_comm]
  have h3 : ws + w < n / w * w + w := lt_of_le_of_lt h h2
  exact Nat.lt_of_add_lt_add_right h3

theorem callResults_length (rl : RateLimiter) (X : String) (ts : List ℚ) :
    (callResults rl X ts).length = ts.length := by
  induction ts generalizing rl with
  | nil => rfl
  | cons t ts ih => simp [callResults, ih]

theorem good_init (r w : ℕ) (hr : 1 ≤ r) (hw : 1 ≤ w) :
    Good (RateLimiter.init r w) := by
  refine ⟨hr, hw, fun X ws c h => ?_⟩
  simp [RateLimiter.init] at h

theorem good_step (rl : RateLimiter) (cid : CustomerArg) (ct : TimeArg)
    (hg : Good rl) : Good (rl.is_allowed cid ct).2 := by
  obtain ⟨hr, hw, hent⟩ := hg
  refine ⟨by rw [rl.rate_is_allowed]; exact hr,
    by rw [rl.time_window_is_allowed]; exact hw, fun X ws c h => ?_⟩
  rw [rl.rate_is_allowed, rl.time_window_is_allowed]
  rcases rl.is_allowed_snd_shape cid ct with heq | ⟨s, q, _, _, _, _, hcase⟩
  · rw [heq] at h
    exact hent X ws c h
  · rcases hcase with ⟨_, hfn⟩ | ⟨ws₀, c₀, _, _, hfn⟩ | ⟨ws₀, c₀, hc₀, hlt, _, hfn⟩
    · rw [hfn X] at h
      by_cases hXs : X = s
      · rw [if_pos hXs] at h
        simp only [Option.some.injEq, Prod.mk.injEq] at h
        refine ⟨by omega, by omega, ?_⟩
        rw [← h.1]; exact windowStart_mod _ _
      · rw [if_neg hXs] at h
        exact hent X ws c h
    · rw [hfn X] at h
      by_cases hXs : X = s
      · rw [if_pos hXs] at h
        simp only [Option.some.injEq, Prod.mk.injEq] at h
        refine ⟨by omega, by omega, ?_⟩
        rw [← h.1]; exact windowStart_mod _ _
      · rw [if_neg hXs] at h
        exact hent X ws c h
    · rw [hfn X] at h
      by_cases hXs : X = s
      · rw [if_pos hXs] at h
        simp only [Option.some.injEq, Prod.mk.injEq] at h
        obtain ⟨h1, _, h3⟩ := hent s ws₀ c₀ hc₀
        refine ⟨by omega, by omega, ?_⟩
        rw [← h.1]; exact h3
      · rw [if_neg hXs] at h
        exact hent X ws c h

theorem reachable_good (rl : RateLimiter) (h : Reachable rl) : Good rl := by
  induction h with
  | base r w hr hw => exact good_init r w hr hw
  | step rl cid ct _ ih => exact good_step rl cid ct ih

theorem saturatedAt_step (rl : RateLimiter) (X : String) (ws R : ℕ)
    (cid : CustomerArg) (ct : TimeArg) (hS : SaturatedAt X ws R rl) :
    SaturatedAt X ws R (rl.is_allowed cid ct).2 := by
  obtain ⟨hrate, ws', c, hent, hle, himp⟩ := hS
  refine ⟨by rw [rl.rate_is_allowed]; exact hrate, ?_⟩
  rcases rl.is_allowed_snd_shape cid ct with heq | ⟨s, q, _, _, _, _, hcase⟩
  · rw [heq]
    exact ⟨ws', c, hent, hle, himp⟩
  · rcases hcase with ⟨hnone, hfn⟩ | ⟨ws₀, c₀, hc₀, hlt, hfn⟩ | ⟨ws₀, c₀, hc₀, hcr, hge, hfn⟩
    · by_cases hXs : X = s
      · rw [hXs] at hent; rw [hnone] at hent; exact absurd hent (by simp)
      · exact ⟨ws', c, by rw [hfn X, if_neg hXs]; exact hent, hle, himp⟩
    · by_cases hXs : X = s
      · rw [hXs] at hent
        rw [hent] at hc₀
        obtain ⟨h1, h2⟩ : ws₀ = ws' ∧ c₀ = c := by
          simpa [Prod.ext_iff] using hc₀.symm
        refine ⟨(⌊q⌋).toNat / rl.time_window * rl.time_window, 1,
          by rw [hXs, hfn s, if_pos rfl], by omega, fun hEq => absurd hEq (by omega)⟩
      · exact ⟨ws', c, by rw [hfn X, if_neg hXs]; exact hent, hle, himp⟩
    · by_cases hXs : X = s
      · rw [hXs] at hent
        rw [hent] at hc₀
        obtain ⟨h1, h2⟩ : ws₀ = ws' ∧ c₀ = c := by
          simpa [Prod.ext_iff] using hc₀.symm
        refine ⟨ws₀, c₀ + 1, by rw [hXs, hfn s, if_pos rfl], by omega, fun hEq => ?_⟩
        have := himp (by omega)
        omega
      · exact ⟨ws', c, by rw [hfn X, if_neg hXs]; exact hent, hle, himp⟩

theorem saturatedAt_runCalls (rl : RateLimiter) (X : String) (ws R : ℕ)
    (calls : List (CustomerArg × TimeArg)) (hS : SaturatedAt X ws R rl) :
    SaturatedAt X ws R (runCalls rl calls) := by
  induction calls generalizing rl with
  | nil => exact hS
  | cons a rest ih =>
    exact ih _ (saturatedAt_step rl X ws R a.1 a.2 hS)

/-- C6, construction validation: constructing the limiter fails with
`InvalidConfiguration` (a `ValueError`) iff `rate` is not a positive integer
or `time_window` is not a positive integer; on success the stored
configuration equals the arguments and the customer table is empty. -/
theorem construction_validation (a b : IntArg) :
    (isErr (RateLimiter.make a b) = true ↔
      (∀ r : ℤ, a = .int r → r ≤ 0) ∨ (∀ w : ℤ, b = .int w → w ≤ 0)) ∧
    (∀ r w : ℤ, a = .int r → 0 < r → b = .int w → 0 < w →
      RateLimiter.make a b =
        .ok { rate := r.toNat, time_window := w.toNat, customers := fun _ => none } ∧
      (r.toNat : ℤ) = r ∧ (w.toNat : ℤ) = w) := by
  constructor
  · rcases a with r | _
    · rcases b with w | _
      · by_cases hr : r ≤ 0
        · simp only [RateLimiter.make, if_pos hr, isErr, true_iff]
          exact Or.inl (by rintro r' ⟨rfl⟩; exact hr)
        · by_cases hw : w ≤ 0
          · simp only [RateLimiter.make, if_neg hr, if_pos hw, isErr, true_iff]
            exact Or.inr (by rintro w' ⟨rfl⟩; exact hw)
          · simp only [RateLimiter.make, if_neg hr, if_neg hw, isErr,
              Bool.false_eq_true, false_iff]
            rintro (h | h)
            · exact hr (h r rfl)
            · exact hw (h w rfl)
      · by_cases hr : r ≤ 0
        · simp only [RateLimiter.make, if_pos hr, isErr, true_iff]
          exact Or.inl (by rintro r' ⟨rfl⟩; exact hr)
        · simp only [RateLimiter.make, if_neg hr, isErr, true_iff]
          exact Or.inr (by rintro w' h; exact absurd h (by simp))
    · simp only [RateLimiter.make, isErr, true_iff]
      exact Or.inl (by rintro r' h; exact absurd h (by simp))
  · rintro r w rfl hr rfl hw
    refine ⟨?_, Int.toNat_of_nonneg (by omega), Int.toNat_of_nonneg (by omega)⟩
    simp only [RateLimiter.make, if_neg (by omega : ¬ r ≤ 0), if_neg (by omega : ¬ w ≤ 0)]
    rfl

/-- Witness for C6 at the spec's configuration `rate = 5`, `window = 60`,
and at the invalid configuration `rate = 0`. -/
theorem construction_validation_witness :
    RateLimiter.make (.int 5) (.int 60) =
      .ok { rate := 5, time_window := 60, customers := fun _ => none } ∧
    isErr (RateLimiter.make (.int 0) (.int 60)) = true := by
  constructor
  · exact ((construction_validation (.int 5) (.int 60)).2 5 60 rfl (by decide)
      rfl (by decide)).1
  · exact (construction_validation (.int 0) (.int 60)).1.mpr
      (Or.inl (by rintro r ⟨rfl⟩; decide))

/-- C5, argument validation with atomicity: `is_allowed` raises
`InvalidArgument` (a `ValueError`) iff the identity is empty or not a
string, or the timestamp is not a number or is negative; and whenever it
raises, the customer table is exactly as before the call. -/
theorem argument_validation (rl : RateLimiter) (cid : CustomerArg) (ct : TimeArg) :
    (isErr (rl.is_allowed cid ct).1 = true ↔
      (cid = .nonStr ∨ cid = .str "") ∨
      (ct = .nonNum ∨ ∃ q : ℚ, ct = .num q ∧ q < 0)) ∧
    (isErr (rl.is_allowed cid ct).1 = true → (rl.is_allowed cid ct).2 = rl) := by
  rcases cid with s | _
  · by_cases hs : s = ""
    · subst hs
      rw [rl.is_allowed_empty]
      exact ⟨by simp [isErr], fun _ => rfl⟩
    · rcases ct with q | _
      · by_cases hq : q < 0
        · rw [rl.is_allowed_neg s q hs hq]
          refine ⟨by simp only [isErr, true_iff]; exact Or.inr (Or.inr ⟨q, rfl, hq⟩),
            fun _ => rfl⟩
        · have hok := rl.is_allowed_ok_of_valid s q hs (not_lt.mp hq)
          rw [hok]
          simp only [Bool.false_eq_true, false_iff, false_implies, and_true]
          rintro ((h | h) | (h | ⟨q', hq', hlt⟩))
          · exact absurd h (by simp)
          · exact hs (by injection h)
          · exact absurd h (by simp)
          · obtain rfl : q = q' := by injection hq'
            exact hq hlt
      · rw [rl.is_allowed_nonNum s hs]
        exact ⟨by simp [isErr], fun _ => rfl⟩
  · rw [rl.is_allowed_nonStr]
    exact ⟨by simp [isErr], fun _ => rfl⟩

/-- Witness for C5: a call with an empty identity raises and leaves the
fresh limiter's state unchanged. -/
theorem argument_validation_witness :
    ((RateLimiter.init 1 1).is_allowed (.str "") (.num 0)).2 = RateLimiter.init 1 1 :=
  (argument_validation (RateLimiter.init 1 1) (.str "") (.num 0)).2 (by decide)

/-- C7, frame and identity isolation: a call never touches the entries of
other identities; the state is mutated only when the call returns `true`;
and the decision and new entry for an identity depend only on the
configuration and on that identity's own entry, so the decisions for `A`
are independent of interleaved calls for other identities. -/
theorem frame_and_isolation :
    (∀ (rl : RateLimiter) (cid : CustomerArg) (ct : TimeArg) (B : String),
      cid ≠ .str B → (rl.is_allowed cid ct).2.customers B = rl.customers B) ∧
    (∀ (rl : RateLimiter) (cid : CustomerArg) (ct : TimeArg),
      (rl.is_allowed cid ct).1 ≠ .ok true → (rl.is_allowed cid ct).2 = rl) ∧
    (∀ (rl₁ rl₂ : RateLimiter) (A : String) (ct : TimeArg),
      rl₁.rate = rl₂.rate → rl₁.time_window = rl₂.time_window →
      rl₁.customers A = rl₂.customers A →
      (rl₁.is_allowed (.str A) ct).1 = (rl₂.is_allowed (.str A) ct).1 ∧
      (rl₁.is_allowed (.str A) ct).2.customers A =
        (rl₂.is_allowed (.str A) ct).2.customers A) := by
  refine ⟨fun rl cid ct B hB => rl.customers_is_allowed_other cid ct B hB,
    fun rl cid ct h => ?_, fun rl₁ rl₂ A ct hr hw hA => ?_⟩
  · rcases cid with s | _
    · rcases ct with q | _
      · by_cases hs : s = ""
        · subst hs; rw [rl.is_allowed_empty]
        by_cases hq : q < 0
        · rw [rl.is_allowed_neg s q hs hq]
        replace hq := not_lt.mp hq
        cases hcs : rl.customers s with
        | none => exact absurd (by rw [rl.is_allowed_new s q hs hq hcs]) h
        | some p =>
          obtain ⟨ws, c⟩ := p
          by_cases h1 : ws < (⌊q⌋).toNat / rl.time_window * rl.time_window
          · exact absurd (by rw [rl.is_allowed_reset s q ws c hs hq hcs h1]) h
          by_cases h2 : rl.rate ≤ c
          · rw [rl.is_allowed_reject s q ws c hs hq hcs h1 h2]
          · exact absurd (by rw [rl.is_allowed_incr s q ws c hs hq hcs h1 h2]) h
      · by_cases hs : s = ""
        · subst hs; rw [rl.is_allowed_empty]
        · rw [rl.is_allowed_nonNum s hs]
    · rw [rl.is_allowed_nonStr]
  · by_cases hs : A = ""
    · subst hs
      rw [rl₁.is_allowed_empty, rl₂.is_allowed_empty]
      exact ⟨rfl, hA⟩
    rcases ct with q | _
    · by_cases hq : q < 0
      · rw [rl₁.is_allowed_neg A q hs hq, rl₂.is_allowed_neg A q hs hq]
        exact ⟨rfl, hA⟩
      replace hq := not_lt.mp hq
      cases hcs : rl₂.customers A with
      | none =>
        have hcs₁ : rl₁.customers A = none := by rw [hA, hcs]
        rw [rl₁.is_allowed_new A q hs hq hcs₁, rl₂.is_allowed_new A q hs hq hcs]
        simp [hr, hw]
      | some p =>
        obtain ⟨ws, c⟩ := p
        have hcs₁ : rl₁.customers A = some (ws, c) := by rw [hA, hcs]
        by_cases h1 : ws < (⌊q⌋).toNat / rl₂.time_window * rl₂.time_window
        · have h1' : ws < (⌊q⌋).toNat / rl₁.time_window * rl₁.time_window := by
            rw [hw]; exact h1
          rw [rl₁.is_allowed_reset A q ws c hs hq hcs₁ h1',
            rl₂.is_allowed_reset A q ws c hs hq hcs h1]
          simp [hw]
        · have h1' : ¬ ws < (⌊q⌋).toNat / rl₁.time_window * rl₁.time_window := by
            rw [hw]; exact h1
          by_cases h2 : rl₂.rate ≤ c
          · have h2' : rl₁.rate ≤ c := by rw [hr]; exact h2
            rw [rl₁.is_allowed_reject A q ws c hs hq hcs₁ h1' h2',
              rl₂.is_allowed_reject A q ws c hs hq hcs h1 h2]
            exact ⟨rfl, hA⟩
          · have h2' : ¬ rl₁.rate ≤ c := by rw [hr]; exact h2
            rw [rl₁.is_allowed_incr A q ws c hs hq hcs₁ h1' h2',
              rl₂.is_allowed_incr A q ws c hs hq hcs h1 h2]
            simp
    · rw [rl₁.is_allowed_nonNum A hs, rl₂.is_allowed_nonNum A hs]
      exact ⟨rfl, hA⟩

/-- Witness for C7: a call for identity `a` on a fresh limiter leaves the
entry of identity `b` unchanged. -/
theorem frame_and_isolation_witness :
    ((RateLimiter.init 2 5).is_allowed (.str "a") (.num 0)).2.customers "b" =
      (RateLimiter.init 2 5).customers "b" :=
  frame_and_isolation.1 (RateLimiter.init 2 5) (.str "a") (.num 0) "b" (by decide)

theorem callResults_saturated {r w c : ℕ} {X : String} (hX : X ≠ "")
    (ts : List ℚ) :
    ∀ (rl : RateLimiter) (k : ℕ), 1 ≤ k →
      rl.rate = r → rl.time_window = w →
      rl.customers X = some (c, min k r) →
      (∀ t ∈ ts, 0 ≤ t ∧ (⌊t⌋).toNat / w * w = c) →
      ∀ i, i < ts.length →
        (callResults rl X ts)[i]? = some (.ok (decide (k + i < r))) := by
  induction ts with
  | nil => intro rl k _ _ _ _ _ i hi; simp at hi
  | cons t ts ih =>
    intro rl k hk hr hw hc hts i hi
    obtain ⟨ht0, htc⟩ := hts t (by simp)
    have hnotlt : ¬ c < (⌊t⌋).toNat / rl.time_window * rl.time_window := by
      rw [hw, htc]; exact lt_irrefl c
    by_cases hsat : r ≤ k
    · have hmin : min k r = r := min_eq_right hsat
      have hrej := rl.is_allowed_reject X t c (min k r) hX ht0 hc hnotlt
        (by rw [hr, hmin])
      rcases i with _ | i
      · rw [decide_eq_false (by omega : ¬ k + 0 < r)]
        simp only [callResults, hrej, List.getElem?_cons_zero]
      · have hadd : k + (i + 1) = k + 1 + i := by omega
        rw [hadd]
        have hc' : rl.customers X = some (c, min (k + 1) r) := by
          rw [hc, hmin, min_eq_right (by omega : r ≤ k + 1)]
        have htail := ih rl (k + 1) (by omega) hr hw hc'
          (fun t' ht' => hts t' (by simp [ht'])) i (by simpa using hi)
        simp only [callResults, hrej, List.getElem?_cons_succ]
        exact htail
    · have hklt : k < r := not_le.mp hsat
      have hmin : min k r = k := min_eq_left (le_of_lt hklt)
      have hinc := rl.is_allowed_incr X t c (min k r) hX ht0 hc hnotlt
        (by rw [hr, hmin]; omega)
      rcases i with _ | i
      · rw [decide_eq_true (by omega : k + 0 < r)]
        simp only [callResults, hinc, List.getElem?_cons_zero]
      · have hadd : k + (i + 1) = k + 1 + i := by omega
        rw [hadd]
        simp only [callResults, hinc, List.getElem?_cons_succ]
        refine ih { rl with customers := fun id =>
            if id = X then some (c, min k r + 1) else rl.customers id }
          (k + 1) (by omega) hr hw ?_
          (fun t' ht' => hts t' (by simp [ht'])) i (by simpa using hi)
        show (if X = X then some (c, min k r + 1) else rl.customers X) =
          some (c, min (k + 1) r)
        rw [if_pos rfl, hmin, min_eq_left (by omega : k + 1 ≤ r)]

/-- C1, window saturation: with rate `r ≥ 1`, window size `w ≥ 1`, a
non-empty identity `X`, and a sequence of calls whose non-negative
timestamps all yield the same window start `c`, exactly the first `r`
calls return `true` and every later call returns `false`. -/
theorem window_saturation (r w : ℕ) (X : String) (ts : List ℚ) (c : ℕ)
    (hr : 1 ≤ r) (_hw : 1 ≤ w) (hX : X ≠ "")
    (hts : ∀ t ∈ ts, 0 ≤ t ∧ (⌊t⌋).toNat / w * w = c) :
    ∀ i, i < ts.length →
      (callResults (RateLimiter.init r w) X ts)[i]? = some (.ok (decide (i < r))) := by
  cases ts with
  | nil => intro i hi; simp at hi
  | cons t ts =>
    intro i hi
    obtain ⟨ht0, htc⟩ := hts t (by simp)
    have hnew := (RateLimiter.init r w).is_allowed_new X t hX ht0 rfl
    rcases i with _ | i
    · rw [decide_eq_true (by omega : 0 < r)]
      simp only [callResults, hnew, List.getElem?_cons_zero]
    · simp only [callResults, hnew, List.getElem?_cons_succ]
      have hadd : decide (i + 1 < r) = decide (1 + i < r) := by rw [Nat.add_comm i 1]
      rw [hadd]
      refine @callResults_saturated r w c X hX ts _ 1 le_rfl ?_ ?_ ?_ ?_ i ?_
      · rfl
      · rfl
      · show (if X = X then some ((⌊t⌋).toNat / w * w, 1)
            else (none : Option (ℕ × ℕ))) = some (c, min 1 r)
        rw [if_pos rfl, htc, min_eq_left hr]
      · exact fun t' ht' => hts t' (by simp [ht'])
      · simpa using hi

/-- Witness for C1 on the spec's concrete scenario: with `rate = 5`,
`window = 60`, the sixth call in window `[60, 120)` is rejected. -/
theorem window_saturation_witness :
    (callResults (RateLimiter.init 5 60) "user_123"
      [100, 101, 102, 103, 104, 110])[5]? = some (.ok false) :=
  window_saturation 5 60 "user_123" [100, 101, 102, 103, 104, 110] 60
    (by decide) (by decide) (by decide) (by decide) 5 (by decide)

/-- C2, window rollover resets: if the stored state for `X` is `(ws, rate)`
(count saturated), a call at any timestamp `t ≥ ws + w` returns `true` and
leaves the stored state equal to `(⌊t⌋ / w * w, 1)`. -/
theorem window_rollover_reset (rl : RateLimiter) (X : String) (ws : ℕ) (t : ℚ)
    (hX : X ≠ "") (hw : 1 ≤ rl.time_window)
    (hsat : rl.customers X = some (ws, rl.rate))
    (ht : ((ws : ℚ) + (rl.time_window : ℚ)) ≤ t) :
    (rl.is_allowed (.str X) (.num t)).1 = .ok true ∧
    (rl.is_allowed (.str X) (.num t)).2.customers X =
      some ((⌊t⌋).toNat / rl.time_window * rl.time_window, 1) := by
  have ht0 : 0 ≤ t := le_trans (by positivity) ht
  have hfl : ((ws + rl.time_window : ℕ) : ℤ) ≤ ⌊t⌋ := by
    rw [Int.le_floor]
    push_cast
    exact ht
  have hfl0 : 0 ≤ ⌊t⌋ := Int.floor_nonneg.mpr ht0
  have hge : ws + rl.time_window ≤ (⌊t⌋).toNat := by omega
  have hlt : ws < (⌊t⌋).toNat / rl.time_window * rl.time_window :=
    windowStart_lt_of_add_le rl.time_window ws (⌊t⌋).toNat hw hge
  have hres := rl.is_allowed_reset X t ws rl.rate hX ht0 hsat hlt
  refine ⟨by rw [hres], ?_⟩
  rw [hres]
  show (if X = X then
      some ((⌊t⌋).toNat / rl.time_window * rl.time_window, 1)
      else rl.customers X) =
    some ((⌊t⌋).toNat / rl.time_window * rl.time_window, 1)
  rw [if_pos rfl]

/-- Witness for C2: with `rate = 1`, `window = 10` and identity `x`
saturated in window `[0, 10)`, a call at `t = 12` is admitted and the
stored state becomes `(10, 1)`. -/
theorem window_rollover_reset_witness :
    ((((RateLimiter.init 1 10).is_allowed (.str "x") (.num 3)).2).is_allowed
        (.str "x") (.num 12)).1 = .ok true ∧
    ((((RateLimiter.init 1 10).is_allowed (.str "x") (.num 3)).2).is_allowed
        (.str "x") (.num 12)).2.customers "x" = some (10, 1) :=
  window_rollover_reset ((RateLimiter.init 1 10).is_allowed (.str "x") (.num 3)).2
    "x" 0 12 (by decide) (by decide) (by decide)
    (by norm_num : ((0 : ℕ) : ℚ) + ((10 : ℕ) : ℚ) ≤ 12)

/-- C4, backward-clock fall-through: a call whose computed window start is
strictly below the stored `ws` does not reset the entry; it is handled by
the same-window rate check against the stale stored count. -/
theorem backward_clock_fall_through (rl : RateLimiter) (X : String) (ws c : ℕ)
    (t : ℚ) (hX : X ≠ "") (ht : 0 ≤ t)
    (hentry : rl.customers X = some (ws, c))
    (hback : (⌊t⌋).toNat / rl.time_window * rl.time_window < ws) :
    (rl.rate ≤ c → rl.is_allowed (.str X) (.num t) = (.ok false, rl)) ∧
    (c < rl.rate →
      (rl.is_allowed (.str X) (.num t)).1 = .ok true ∧
      (rl.is_allowed (.str X) (.num t)).2.customers X = some (ws, c + 1) ∧
      ∀ B, B ≠ X → (rl.is_allowed (.str X) (.num t)).2.customers B =
        rl.customers B) := by
  have hge : ¬ ws < (⌊t⌋).toNat / rl.time_window * rl.time_window :=
    not_lt.mpr (le_of_lt hback)
  constructor
  · intro h
    exact rl.is_allowed_reject X t ws c hX ht hentry hge h
  · intro h
    have hinc := rl.is_allowed_incr X t ws c hX ht hentry hge (not_le.mpr h)
    refine ⟨by rw [hinc], ?_, fun B hB => ?_⟩
    · rw [hinc]
      show (if X = X then some (ws, c + 1) else rl.customers X) = some (ws, c + 1)
      rw [if_pos rfl]
    · rw [hinc]
      show (if B = X then some (ws, c + 1) else rl.customers B) = rl.customers B
      rw [if_neg hB]

/-- Witness for C4: with stored window start 20 for `x`, a call at `t = 5`
(window start 0) increments the stale entry to `(20, 2)` and returns
`true`. -/
theorem backward_clock_fall_through_witness :
    ((((RateLimiter.init 2 10).is_allowed (.str "x") (.num 25)).2).is_allowed
        (.str "x") (.num 5)).1 = .ok true ∧
    ((((RateLimiter.init 2 10).is_allowed (.str "x") (.num 25)).2).is_allowed
        (.str "x") (.num 5)).2.customers "x" = some (20, 2) := by
  have h := (backward_clock_fall_through
    ((RateLimiter.init 2 10).is_allowed (.str "x") (.num 25)).2
    "x" 20 1 5 (by decide) (by decide) (by decide) (by decide)).2 (by decide)
  exact ⟨h.1, h.2.1⟩

/-- C3, count-bound invariant: in every reachable state each stored count
is at most the configured rate, and any call that gives an entry a window
start it did not have before sets that entry's count to exactly 1. -/
theorem count_bound_invariant (rl : RateLimiter) (h : Reachable rl) :
    (∀ X ws c, rl.customers X = some (ws, c) → c ≤ rl.rate) ∧
    (∀ (cid : CustomerArg) (ct : TimeArg) (X : String) (ws' c' : ℕ),
      (rl.is_allowed cid ct).2.customers X = some (ws', c') →
      (¬ ∃ c₀, rl.customers X = some (ws', c₀)) → c' = 1) := by
  constructor
  · intro X ws c hX
    exact ((reachable_good rl h).2.2 X ws c hX).2.1
  · intro cid ct X ws' c' hnew hchange
    rcases rl.is_allowed_snd_shape cid ct with heq | ⟨s, q, _, _, _, _, hcase⟩
    · rw [heq] at hnew
      exact absurd ⟨c', hnew⟩ hchange
    · rcases hcase with ⟨hnone, hfn⟩ | ⟨ws₀, c₀, hc₀, hlt, hfn⟩ |
        ⟨ws₀, c₀, hc₀, hcr, hge, hfn⟩
      · rw [hfn X] at hnew
        by_cases hXs : X = s
        · rw [if_pos hXs] at hnew
          simp only [Option.some.injEq, Prod.mk.injEq] at hnew
          omega
        · rw [if_neg hXs] at hnew
          exact absurd ⟨c', hnew⟩ hchange
      · rw [hfn X] at hnew
        by_cases hXs : X = s
        · rw [if_pos hXs] at hnew
          simp only [Option.some.injEq, Prod.mk.injEq] at hnew
          omega
        · rw [if_neg hXs] at hnew
          exact absurd ⟨c', hnew⟩ hchange
      · rw [hfn X] at hnew
        by_cases hXs : X = s
        · rw [if_pos hXs] at hnew
          simp only [Option.some.injEq, Prod.mk.injEq] at hnew
          refine absurd ⟨c₀, ?_⟩ hchange
          rw [hXs, hc₀, hnew.1]
        · rw [if_neg hXs] at hnew
          exact absurd ⟨c', hnew⟩ hchange

/-- Witness for C3: applies the invariant to the reachable state after one
admitted call on a fresh `rate = 2`, `window = 5` limiter. -/
theorem count_bound_invariant_witness :
    (1 : ℕ) ≤ ((RateLimiter.init 2 5).is_allowed (.str "a") (.num 3)).2.rate :=
  (count_bound_invariant ((RateLimiter.init 2 5).is_allowed (.str "a") (.num 3)).2
    (Reachable.step (RateLimiter.init 2 5) (.str "a") (.num 3)
      (Reachable.base 2 5 (by decide) (by decide)))).1 "a" 0 1 (by decide)

/-- C9, implicit stored-entry invariant: in every reachable state every
stored entry has count at least 1 and a window start that is a (necessarily
non-negative) multiple of the configured window size. -/
theorem stored_entry_invariant (rl : RateLimiter) (h : Reachable rl) :
    ∀ X ws c, rl.customers X = some (ws, c) →
      1 ≤ c ∧ rl.time_window ∣ ws := by
  intro X ws c hX
  obtain ⟨-, -, hent⟩ := reachable_good rl h
  obtain ⟨h1, -, h3⟩ := hent X ws c hX
  exact ⟨h1, Nat.dvd_of_mod_eq_zero h3⟩

/-- Witness for C9: the entry created by a call at `t = 7` on a fresh
`rate = 2`, `window = 5` limiter is `(5, 1)`: count 1 and window start
divisible by the window size. -/
theorem stored_entry_invariant_witness :
    (1 : ℕ) ≤ 1 ∧
      ((RateLimiter.init 2 5).is_allowed (.str "x") (.num 7)).2.time_window ∣ 5 :=
  stored_entry_invariant ((RateLimiter.init 2 5).is_allowed (.str "x") (.num 7)).2
    (Reachable.step (RateLimiter.init 2 5) (.str "x") (.num 7)
      (Reachable.base 2 5 (by decide) (by decide))) "x" 5 1 (by decide)

/-- C10, saturation persistence: a rejected call leaves the state exactly
unchanged, and after any further calls, as long as identity `X` still
stores the same window start `ws`, a call whose computed window start
equals `ws` is again rejected. -/
theorem saturation_persistence (rl : RateLimiter) (X : String) (t : ℚ)
    (ws c : ℕ) (hentry : rl.customers X = some (ws, c))
    (hfalse : (rl.is_allowed (.str X) (.num t)).1 = .ok false) :
    (rl.is_allowed (.str X) (.num t)).2 = rl ∧
    ∀ (calls : List (CustomerArg × TimeArg)) (t' : ℚ) (c₁ : ℕ),
      (runCalls rl calls).customers X = some (ws, c₁) → 0 ≤ t' →
      (⌊t'⌋).toNat / (runCalls rl calls).time_window *
        (runCalls rl calls).time_window = ws →
      ((runCalls rl calls).is_allowed (.str X) (.num t')).1 = .ok false := by
  obtain ⟨hX, ht0, hsatc, hnl, hunch⟩ := rl.of_reject X t ws c hentry hfalse
  refine ⟨hunch, fun calls t' c₁ h₁ ht' hw' => ?_⟩
  have hS : SaturatedAt X ws rl.rate rl :=
    ⟨rfl, ws, c, hentry, le_refl ws, fun _ => hsatc⟩
  obtain ⟨hrate₁, ws₁, c₂, hent₁, hle₁, himp₁⟩ :=
    saturatedAt_runCalls rl X ws rl.rate calls hS
  rw [h₁] at hent₁
  obtain ⟨hws₁, hc₂⟩ : ws₁ = ws ∧ c₂ = c₁ := by
    simpa [Prod.ext_iff] using hent₁.symm
  have hsat₁ : (runCalls rl calls).rate ≤ c₁ := by
    rw [hrate₁, ← hc₂]
    exact himp₁ hws₁
  have hge : ¬ ws < (⌊t'⌋).toNat / (runCalls rl calls).time_window *
      (runCalls rl calls).time_window := by
    rw [hw']
    exact lt_irrefl ws
  rw [(runCalls rl calls).is_allowed_reject X t' ws c₁ hX ht' h₁ hge hsat₁]

/-- Witness for C10: with `rate = 1`, `window = 10`, after `x` is rejected
at `t = 4` and an interleaved call for `y`, a call for `x` at `t = 7`
(same window) is still rejected. -/
theorem saturation_persistence_witness :
    ((runCalls ((RateLimiter.init 1 10).is_allowed (.str "x") (.num 3)).2
        [(.str "y", .num 5)]).is_allowed (.str "x") (.num 7)).1 = .ok false :=
  (saturation_persistence ((RateLimiter.init 1 10).is_allowed (.str "x") (.num 3)).2
    "x" 4 0 1 (by decide) (by decide)).2 [(.str "y", .num 5)] 7 1
    (by decide) (by decide) (by decide)

end RateLimiterSpec
